import Mathlib

/-!
Verification of the arXiv OAI-PMH ingestion pipeline
(`src/ingest/ingest_arxiv.py` of the elastic-papers repository).

The Python source is shallowly embedded below.  Machine-level conventions:

* Python `str` values are Lean `String`s; Python's string comparison operators
  compare code points lexicographically, embedded here as `pyCmp` over
  `List Char` using `Char.toNat` (the code point).
* Python `str.strip()` is embedded as `pyStrip`, trimming the ASCII whitespace
  characters recognised by `Char.isWhitespace`; the source only ever strips
  ordinary spaces, tabs and newlines from XML text nodes.
* The regex `\d` in `re.sub(r"v\d+$", "", s)` is embedded as `Char.isDigit`
  (ASCII digits); arXiv identifiers are ASCII.
* Fallible Python code (code that can raise) is embedded in `Except`;
  the distinct exception classes raised by the source are the constructors
  of `PyErr`.
* XML element trees (`xml.etree.ElementTree`) are embedded as `XmlNode`:
  a namespace URI (`""` for an unnamespaced element), a local tag name,
  an attribute association list, optional text, and a forest of children.
  `Element.iter()` (preorder, self included) is `nodesOf`; the ElementTree
  path `.//{ns}tag` (all descendants, document order) searches `descOf`.
  An ElementTree `Element` is *truthy* iff it has child elements
  (CPython ≤ 3.13 semantics of `Element.__bool__`), embedded by testing
  the child forest for emptiness.
-/

/-- Three-way lexicographic comparison of code-point lists; embeds Python's
string comparison (`<`, `<=`, `min`) on `str`. -/
def pyCmp : List Char → List Char → Ordering
  | [], [] => .eq
  | [], _ :: _ => .lt
  | _ :: _, [] => .gt
  | a :: as, b :: bs =>
    if a.toNat < b.toNat then .lt
    else if b.toNat < a.toNat then .gt
    else pyCmp as bs

/-- Python `a < b` on strings. -/
def pyLt (a b : String) : Bool := pyCmp a.data b.data == .lt

/-- Python `a <= b` on strings (`¬ b < a`, the orders being total). -/
def pyLe (a b : String) : Bool := !(pyCmp b.data a.data == .lt)

/-- Python `min(a, b)` on strings: `b` if `b < a` else `a`. -/
def pyMin (a b : String) : String := if pyLt b a then b else a

/-- Python `str.strip()`: drop leading and trailing whitespace. -/
def pyStrip (s : String) : String :=
  ⟨((s.data.dropWhile Char.isWhitespace).reverse.dropWhile Char.isWhitespace).reverse⟩

/-- Python `str.split()` (split on whitespace runs, yielding no empty pieces);
the source post-processes with `[c.strip() for c in ... if c.strip()]`, which
is the identity on these pieces, so this single function embeds the whole
categories tokenisation. -/
def pySplitWsAux : List Char → List Char → List String
  | [], acc => if acc.isEmpty then [] else [⟨acc.reverse⟩]
  | c :: cs, acc =>
    if c.isWhitespace then
      (if acc.isEmpty then pySplitWsAux cs [] else ⟨acc.reverse⟩ :: pySplitWsAux cs [])
    else pySplitWsAux cs (c :: acc)

def pySplitWs (s : String) : List String := pySplitWsAux s.data []

/-- Python `str.startswith`. -/
def pyStartsWith (s p : String) : Bool := p.data.isPrefixOf s.data

/-- `re.sub(r"v\d+$", "", s)` — remove a trailing `v` followed by one or more
digits, anchored at the end of the string.  The unique possible match is the
maximal all-digit suffix together with the `v` immediately before it, so the
substitution is embedded by inspecting the reversed character list. -/
def stripVersion (s : String) : String :=
  match s.data.reverse.dropWhile Char.isDigit with
  | 'v' :: rest =>
    if (s.data.reverse.takeWhile Char.isDigit).isEmpty then s else ⟨rest.reverse⟩
  | _ => s

/-! ### XML element-tree model -/

mutual
/-- An `xml.etree.ElementTree.Element`: namespace URI (empty for none), local
tag name, attributes, text, children (in document order). -/
inductive XmlNode where
  | mk (ns tag : String) (attrs : List (String × String)) (text : Option String)
       (children : XmlForest)
inductive XmlForest where
  | nil
  | cons (x : XmlNode) (xs : XmlForest)
end

def XmlNode.ns : XmlNode → String
  | .mk n _ _ _ _ => n

def XmlNode.tag : XmlNode → String
  | .mk _ t _ _ _ => t

def XmlNode.attrs : XmlNode → List (String × String)
  | .mk _ _ a _ _ => a

def XmlNode.text : XmlNode → Option String
  | .mk _ _ _ t _ => t

def XmlNode.children : XmlNode → XmlForest
  | .mk _ _ _ _ cs => cs

def XmlForest.ofList : List XmlNode → XmlForest
  | [] => .nil
  | x :: xs => .cons x (XmlForest.ofList xs)

def XmlForest.toList : XmlForest → List XmlNode
  | .nil => []
  | .cons x xs => x :: XmlForest.toList xs

def XmlForest.isEmpty : XmlForest → Bool
  | .nil => true
  | .cons _ _ => false

mutual
/-- `Element.iter()`: the element itself followed by its whole subtree,
in document (preorder) order. -/
def nodesOf : XmlNode → List XmlNode
  | .mk ns tag attrs text children => .mk ns tag attrs text children :: nodesF children
def nodesF : XmlForest → List XmlNode
  | .nil => []
  | .cons x xs => nodesOf x ++ nodesF xs
end

/-- All proper descendants of an element in document order: the search space
of an ElementTree `.//` path. -/
def descOf (el : XmlNode) : List XmlNode := nodesF el.children

/-- `el.find(".//{ns}tag")`: first descendant with the given namespace and tag. -/
def findDesc (el : XmlNode) (ns tag : String) : Option XmlNode :=
  (descOf el).find? (fun c => c.ns == ns && c.tag == tag)

/-- `el.findall(".//{ns}tag")`: all descendants with the given namespace and tag. -/
def findallDesc (el : XmlNode) (ns tag : String) : List XmlNode :=
  (descOf el).filter (fun c => c.ns == ns && c.tag == tag)

/-- `el.find(tag, nsmap)` with a plain (non-`.//`) tag: first direct child
with the given namespace and tag. -/
def findChild (el : XmlNode) (ns tag : String) : Option XmlNode :=
  el.children.toList.find? (fun c => c.ns == ns && c.tag == tag)

/-- `el.get(key)` on the attribute dictionary. -/
def pyAttr (el : XmlNode) (k : String) : Option String :=
  (el.attrs.find? (fun p => p.1 == k)).map (fun p => p.2)

/-- Truthiness of an optional `Element` (CPython ≤ 3.13): `None` is falsy and
an `Element` is truthy iff it has at least one child element. -/
def pyTruthy : Option XmlNode → Bool
  | none => false
  | some el => !el.children.isEmpty

def arxivURI : String := "http://arxiv.org/OAI/arXiv/"

def oaiURI : String := "http://www.openarchives.org/OAI/2.0/"

/-! ### Record Parser (`_text`, `_first`, `_all`, `parse_record`) -/

/-- The exception classes the embedded code can raise. -/
inductive PyErr where
  | attributeError (msg : String)
  | syntaxError (msg : String)
  | runtimeError (msg : String)
deriving DecidableEq

/-- `_text(el)`: `None` for a missing element, else the stripped text, with
whitespace-only text collapsing to `None`. -/
def pyText : Option XmlNode → Option String
  | none => none
  | some el =>
    let t := pyStrip (el.text.getD "")
    if t == "" then none else some t

/-- `_first(el, tag)`: the three-tier tag lookup — namespaced direct child,
then unnamespaced direct child, then the first node of `el.iter()` (self
included) whose local name matches. -/
def pyFirst (el : Option XmlNode) (tag : String) : Option XmlNode :=
  match el with
  | none => none
  | some el =>
    match findChild el arxivURI tag with
    | some c => some c
    | none =>
      match findChild el "" tag with
      | some c => some c
      | none => (nodesOf el).find? (fun c => c.tag == tag)

/-- `_all(el, tag)`: all namespaced direct children with the tag, else all
nodes of `el.iter()` whose local name matches. -/
def pyAll (el : XmlNode) (tag : String) : List XmlNode :=
  let f := el.children.toList.filter (fun c => c.ns == arxivURI && c.tag == tag)
  if f.isEmpty then (nodesOf el).filter (fun c => c.tag == tag) else f

/-- A normalized document as built by `parse_record`. -/
structure Doc where
  arxiv_id : String
  title : String
  authors : List String
  abstract : String
  categories : List String
  created : String
deriving DecidableEq

/-- The author loop of `parse_record`: for each `author` sub-element combine
`forenames` and `keyname` as `f"{f} {k}".strip() or k or f`, dropping empty
names.  Guarded by the truthiness test `if authors_el:`. -/
def parseAuthors (arxiv : XmlNode) : List String :=
  match pyFirst (some arxiv) "authors" with
  | none => []
  | some ael =>
    if ael.children.isEmpty then []
    else
      (pyAll ael "author").foldl
        (fun acc a =>
          let k := (pyText (pyFirst (some a) "keyname")).getD ""
          let f := (pyText (pyFirst (some a) "forenames")).getD ""
          let nm := pyStrip (f ++ " " ++ k)
          let name := if nm ≠ "" then nm else if k ≠ "" then k else f
          if name ≠ "" then acc ++ [name] else acc)
        []

/-- `parse_record(record_el)`.  The wrapper lookup
`meta.find("arxiv:arXiv", ARXIV_NS) or meta.find(".//*[local-name()='arXiv']") or meta`
short-circuits on the truthiness of the first `find`; whenever the second
`find` is evaluated it raises `SyntaxError("invalid predicate")`, because
`local-name()` is not part of ElementTree's XPath subset, so the `or meta`
branch is unreachable. -/
def parse_record (record_el : XmlNode) : Except PyErr (Option Doc) :=
  match findDesc record_el oaiURI "metadata" with
  | none => .ok none
  | some meta =>
    match findChild meta arxivURI "arXiv" with
    | none => .error (.syntaxError "invalid predicate")
    | some a =>
      if a.children.isEmpty then .error (.syntaxError "invalid predicate")
      else
        let arxiv := a
        let title := (pyText (pyFirst (some arxiv) "title")).getD ""
        let abstract := (pyText (pyFirst (some arxiv) "abstract")).getD ""
        let arxiv_id := pyText (pyFirst (some arxiv) "id")
        let created := (pyText (pyFirst (some arxiv) "created")).getD ""
        let cats := (pyText (pyFirst (some arxiv) "categories")).getD ""
        let categories := pySplitWs cats
        let authors := parseAuthors arxiv
        match arxiv_id with
        | none => .ok none
        | some aid =>
          .ok (some { arxiv_id := stripVersion aid, title := title, authors := authors,
                      abstract := abstract, categories := categories, created := created })

/-! ### Page Fetcher (`fetch_page`, response processing)

The HTTP layer is abstracted away: `fetch_page` below consumes the parsed
response tree `root = ET.fromstring(r.content)` and embeds everything the
source does with it — the protocol-error check, the record loop with the
deletion-tombstone skip, and the continuation-token extraction
`ntok = (rt.text or "").strip() or None`, which dereferences `rt.text`
and therefore raises `AttributeError` when the `resumptionToken` element
is absent (`rt is None`). -/

def collectRecords : List XmlNode → Except PyErr (List Doc)
  | [] => .ok []
  | r :: rest =>
    let deleted :=
      match findDesc r oaiURI "header" with
      | some h => pyAttr h "status" == some "deleted"
      | none => false
    if deleted then collectRecords rest
    else
      match parse_record r with
      | .error e => .error e
      | .ok none => collectRecords rest
      | .ok (some d) =>
        match collectRecords rest with
        | .error e => .error e
        | .ok ds => .ok (d :: ds)

def fetch_page (root : XmlNode) : Except PyErr (List Doc × Option String) :=
  match findDesc root oaiURI "error" with
  | some err =>
    .error (.runtimeError
      ("OAI: " ++ (pyAttr err "code").getD "" ++ " - " ++ pyStrip (err.text.getD "")))
  | none =>
    match collectRecords (findallDesc root oaiURI "record") with
    | .error e => .error e
    | .ok docs =>
      match findDesc root oaiURI "resumptionToken" with
      | none => .error (.attributeError "NoneType object has no attribute text")
      | some rt =>
        let t := pyStrip (rt.text.getD "")
        .ok (docs, if t == "" then none else some t)

/-! ### Range Filter -/

/-- `filter_in_range(docs, from_d, until_d)`: keep documents with
`from_d <= (d.get("created") or "") <= until_d` (Python string comparison;
`or ""` is the identity on the always-present `created` string). -/
def filter_in_range (docs : List Doc) (from_d until_d : String) : List Doc :=
  docs.filter (fun d => pyLe from_d d.created && pyLe d.created until_d)

/-- `filter_cs_only(docs)`: keep documents with at least one category starting
with `"cs."`. -/
def filter_cs_only (docs : List Doc) : List Doc :=
  docs.filter (fun d => d.categories.any (fun c => pyStartsWith c "cs."))

/-! ### Harvest Driver (`ingest_range`)

The driver's network effects are abstracted into a fetch oracle
`fetch : Option String → Except String (List Doc × Option String)` mapping
the token passed (`None` for the fresh windowed request) to that request's
outcome.  The bulk indexer is submit-only in the source
(`bulk(..., raise_on_error=False)`, `total += len(actions)`), so indexing
is embedded by counting the filtered batch.  The unbounded `while True` loop
is embedded with step fuel; `none` means the fuel ran out before the run
ended, so every theorem below supplies enough fuel for the run it describes. -/

def ingestLoop (fetch : Option String → Except String (List Doc × Option String))
    (from_d until_d : String) (cs_only : Bool) :
    Nat → Nat → Nat → Option String → Option (Except String Nat)
  | 0, _, _, _ => none
  | fuel + 1, page, total, token =>
    match fetch token with
    | .error e => some (.error e)
    | .ok (records, token') =>
      let filtered := filter_in_range records from_d until_d
      let filtered := if cs_only then filter_cs_only filtered else filtered
      let total := total + filtered.length
      match token' with
      | none => some (.ok total)
      | some t => ingestLoop fetch from_d until_d cs_only fuel (page + 1) total (some t)

def ingest_range (fetch : Option String → Except String (List Doc × Option String))
    (from_d until_d : String) (cs_only : Bool) (fuel : Nat) :
    Option (Except String Nat) :=
  ingestLoop fetch from_d until_d cs_only fuel 1 0 none

/-- The per-page filtering pipeline of one driver iteration. -/
def applyFilters (cs_only : Bool) (from_d until_d : String) (records : List Doc) : List Doc :=
  if cs_only then filter_cs_only (filter_in_range records from_d until_d)
  else filter_in_range records from_d until_d

/-- A terminating run of the fetch oracle starting from token `tok`: each
page in `pages` succeeds and carries a continuation token, and the following
request returns `last` with no token. -/
def fetchRun (fetch : Option String → Except String (List Doc × Option String)) :
    Option String → List (List Doc × String) → List Doc → Prop
  | tok, [], last => fetch tok = .ok (last, none)
  | tok, (recs, t) :: rest, last =>
    fetch tok = .ok (recs, some t) ∧ fetchRun fetch (some t) rest last

/-- A failing run of the fetch oracle starting from token `tok`: each page in
`pages` succeeds and carries a continuation token, and the following request
raises `e`. -/
def fetchRunFail (fetch : Option String → Except String (List Doc × Option String)) :
    Option String → List (List Doc × String) → String → Prop
  | tok, [], e => fetch tok = .error e
  | tok, (recs, t) :: rest, e =>
    fetch tok = .ok (recs, some t) ∧ fetchRunFail fetch (some t) rest e

/-! ### Backfill Planner (`month_range`)

`month_range` is embedded over already-parsed `(year, month)` pairs: the
source's `parse` splits a `YYYY-MM` argument on `-` and maps `int`, so a
well-formed backfill argument corresponds to the pair of naturals below,
and the month-bounds check and the linearised order check are those of the
source.  `datetime.date.today().isoformat()` is the parameter `today`.
The `while` loop runs exactly while `y < ey or (y == ey and m <= em)`;
with months kept in `1..12` by the stepping code this holds iff
`y*12 + m <= ey*12 + em`, so the loop is embedded structurally with the
count of remaining months as fuel.  `datetime.date(y, m+1, 1)` raises
`ValueError` for years outside `1..9999`; that raise is kept. -/

def isLeap (y : Nat) : Bool := y % 4 == 0 && (y % 100 != 0 || y % 400 == 0)

/-- Length of a Gregorian calendar month (the rule implemented by
`datetime.date`). -/
def daysInMonth (y m : Nat) : Nat :=
  if m = 2 then (if isLeap y then 29 else 28)
  else if m = 4 ∨ m = 6 ∨ m = 9 ∨ m = 11 then 30
  else 31

/-- `date - timedelta(days=1)`: the previous calendar day. -/
def prevDay : Nat × Nat × Nat → Nat × Nat × Nat
  | (y, m, d) =>
    if 1 < d then (y, m, d - 1)
    else if 1 < m then (y, m - 1, daysInMonth y (m - 1))
    else (y - 1, 12, 31)

/-- `%02d`. -/
def pad2 (n : Nat) : String := (if n < 10 then "0" else "") ++ Nat.repr n

/-- `%04d`. -/
def pad4 (n : Nat) : String :=
  (if n < 10 then "000" else if n < 100 then "00" else if n < 1000 then "0" else "")
    ++ Nat.repr n

/-- `date.isoformat()`: `%04d-%02d-%02d`. -/
def isoFmt : Nat × Nat × Nat → String
  | (y, m, d) => pad4 y ++ "-" ++ pad2 m ++ "-" ++ pad2 d

/-- `f"{y}-{m:02d}-01"` — the year is *not* zero-padded by this f-string. -/
def fromD (y m : Nat) : String := Nat.repr y ++ "-" ++ pad2 m ++ "-01"

/-- `f"{y}-{m:02d}"`, the window label. -/
def mLabel (y m : Nat) : String := Nat.repr y ++ "-" ++ pad2 m

/-- The un-clamped `until_d`:
`(date(y, m+1, 1) - timedelta(days=1)).isoformat()` for `m < 12`,
else the literal `f"{y}-12-31"`. -/
def until0 (y m : Nat) : String :=
  if m < 12 then isoFmt (prevDay (y, m + 1, 1)) else Nat.repr y ++ "-12-31"

structure MonthWindow where
  label : String
  from_d : String
  until_d : String
deriving DecidableEq

/-- One yielded window: `(f"{y}-{m:02d}", from_d, min(until_d, today))`. -/
def mkWindow (p : Nat × Nat) (today : String) : MonthWindow :=
  ⟨mLabel p.1 p.2, fromD p.1 p.2, pyMin (until0 p.1 p.2) today⟩

def nextY (y m : Nat) : Nat := if m + 1 > 12 then y + 1 else y

def nextM (m : Nat) : Nat := if m + 1 > 12 then 1 else m + 1

def monthRangeGo (today : String) : Nat → Nat → Nat → Except String (List MonthWindow)
  | 0, _, _ => .ok []
  | n + 1, y, m =>
    if m < 12 ∧ ¬(1 ≤ y ∧ y ≤ 9999) then .error "year is out of range"
    else
      let f := fromD y m
      let u := pyMin (until0 y m) today
      if pyLt today f then .ok []
      else
        match monthRangeGo today n (nextY y m) (nextM m) with
        | .error e => .error e
        | .ok rest => .ok (⟨mLabel y m, f, u⟩ :: rest)

/-- `month_range(start_ym, end_ym)`, with the two validation raises and the
linearised order check of the source, consumed to a list of yielded windows
(or the first raised error). -/
def month_range (sy sm ey em : Nat) (today : String) : Except String (List MonthWindow) :=
  if ¬(1 ≤ sm ∧ sm ≤ 12) then .error "Invalid YYYY-MM (start)"
  else if ¬(1 ≤ em ∧ em ≤ 12) then .error "Invalid YYYY-MM (end)"
  else if ey * 12 + em < sy * 12 + sm then .error "start must be <= end"
  else monthRangeGo today (ey * 12 + em + 1 - (sy * 12 + sm)) sy sm

/-- Inverse of the month linearisation `(y, m) ↦ y*12 + m` (months `1..12`). -/
def ymOfLin (k : Nat) : Nat × Nat := ((k - 1) / 12, (k - 1) % 12 + 1)

/-! ### Concrete fixtures used by the claim theorems -/

/-- Whether `s` ends in `v` followed by one or more digits — i.e. whether the
regex `v\d+$` of `parse_record` matches `s` at all. -/
def hasVersionSuffix (s : String) : Bool :=
  match s.data.reverse.dropWhile Char.isDigit with
  | 'v' :: _ => !(s.data.reverse.takeWhile Char.isDigit).isEmpty
  | _ => false

/-- A leaf element with namespace, tag and text. -/
def xmlText (ns tag txt : String) : XmlNode := .mk ns tag [] (some txt) .nil

/-- A well-formed harvested record whose metadata carries the given
identifier text plus a title and abstract. -/
def recWithId (ident : String) : XmlNode :=
  .mk oaiURI "record" [] none (.ofList
    [ .mk oaiURI "header" [] none .nil,
      .mk oaiURI "metadata" [] none (.ofList
        [ .mk arxivURI "arXiv" [] none (.ofList
            [ xmlText arxivURI "id" ident,
              xmlText arxivURI "title" "A Title",
              xmlText arxivURI "abstract" "An abstract.",
              xmlText arxivURI "created" "2026-01-15",
              xmlText arxivURI "categories" "cs.AI math.CO" ]) ]) ])

def dDec31 : Doc := ⟨"p1", "t1", [], "a1", ["cs.AI"], "2025-12-31"⟩

def dJan1 : Doc := ⟨"p2", "t2", [], "a2", ["cs.AI"], "2026-01-01"⟩

def dJan31 : Doc := ⟨"p3", "t3", [], "a3", ["math.CO"], "2026-01-31"⟩

def dFeb1 : Doc := ⟨"p4", "t4", [], "a4", ["cs.LG"], "2026-02-01"⟩



/-- A harvest response carrying one good record and no `resumptionToken`
element at all. -/
def respNoToken : XmlNode :=
  .mk oaiURI "OAI-PMH" [] none (.ofList
    [ .mk oaiURI "ListRecords" [] none (.ofList [recWithId "paper1"]) ])

/-- The same response with a `resumptionToken` element carrying `tok`. -/
def respWithToken (tok : String) : XmlNode :=
  .mk oaiURI "OAI-PMH" [] none (.ofList
    [ .mk oaiURI "ListRecords" [] none (.ofList
        [ recWithId "paper1", xmlText oaiURI "resumptionToken" tok ]) ])

def paper1Doc : Doc :=
  ⟨"paper1", "A Title", [], "An abstract.", ["cs.AI", "math.CO"], "2026-01-15"⟩

/-- A record whose metadata nests title and abstract under an *unnamespaced*
`arXiv` wrapper and carries no identifier anywhere. -/
def recNoNsWrapper : XmlNode :=
  .mk oaiURI "record" [] none (.ofList
    [ .mk oaiURI "header" [] none .nil,
      .mk oaiURI "metadata" [] none (.ofList
        [ .mk "" "arXiv" [] none (.ofList
            [ xmlText "" "title" "A Title",
              xmlText "" "abstract" "An abstract." ]) ]) ])

/-- A record with a proper namespaced wrapper holding title and abstract but
no identifier element. -/
def recNoId : XmlNode :=
  .mk oaiURI "record" [] none (.ofList
    [ .mk oaiURI "metadata" [] none (.ofList
        [ .mk arxivURI "arXiv" [] none (.ofList
            [ xmlText arxivURI "title" "A Title",
              xmlText arxivURI "abstract" "An abstract." ]) ]) ])

def recNoIdMeta : XmlNode :=
  .mk oaiURI "metadata" [] none (.ofList
    [ .mk arxivURI "arXiv" [] none (.ofList
        [ xmlText arxivURI "title" "A Title",
          xmlText arxivURI "abstract" "An abstract." ]) ])

def recNoIdWrap : XmlNode :=
  .mk arxivURI "arXiv" [] none (.ofList
    [ xmlText arxivURI "title" "A Title",
      xmlText arxivURI "abstract" "An abstract." ])

/-- A fetch oracle that fails immediately (page 1, nothing submitted). -/
def fetchFailFirst : Option String → Except String (List Doc × Option String) :=
  fun _ => .error "OAI failed: 500"

/-- A fetch oracle whose first page succeeds with one in-range document and a
continuation token, and whose second request fails (page 2, one document
already submitted). -/
def fetchFailSecond : Option String → Except String (List Doc × Option String) :=
  fun tok =>
    match tok with
    | none => .ok ([dJan1], some "tok1")
    | some _ => .error "OAI failed: 500"

/-- A fetch oracle with two successful pages: the second carries no token. -/
def fetchTwoPages : Option String → Except String (List Doc × Option String) :=
  fun tok =>
    match tok with
    | none => .ok ([dJan1, dFeb1], some "tokA")
    | some _ => .ok ([dJan31], none)

def exceptIsError {ε α : Type} : Except ε α → Bool
  | .error _ => true
  | .ok _ => false

/-! ### Lemmas and claim theorems -/

theorem pyCmp_self : ∀ l : List Char, pyCmp l l = .eq := by
  intro l
  induction l with
  | nil => rfl
  | cons a as ih => simp [pyCmp, ih]

theorem pyLe_refl (a : String) : pyLe a a = true := by
  simp only [pyLe, pyCmp_self]
  decide

theorem pyLe_of_not_lt {a b : String} (h : pyLt a b = false) : pyLe b a = true := by
  simpa [pyLt, pyLe] using h

/-- Transitivity of `¬ · < ·` for the lexicographic comparison. -/
theorem pyCmp_not_lt_trans :
    ∀ (a b c : List Char), pyCmp b a ≠ .lt → pyCmp c b ≠ .lt → pyCmp c a ≠ .lt := by
  intro a
  induction a with
  | nil =>
    intro b c _ _
    cases c <;> simp [pyCmp]
  | cons aa as ih =>
    intro b c h1 h2
    cases c with
    | nil =>
      cases b with
      | nil => exact absurd rfl h1
      | cons bb bs => exact absurd rfl h2
    | cons cc cs =>
      cases b with
      | nil => exact absurd rfl h1
      | cons bb bs =>
        simp only [pyCmp] at h1 h2 ⊢
        rcases Nat.lt_trichotomy bb.toNat aa.toNat with hba | hba | hba
        · simp [hba] at h1
        · rcases Nat.lt_trichotomy cc.toNat bb.toNat with hcb | hcb | hcb
          · simp [hcb] at h2
          · have g1 : ¬ cc.toNat < aa.toNat := by omega
            have g2 : ¬ aa.toNat < cc.toNat := by omega
            have e1 : ¬ bb.toNat < aa.toNat := by omega
            have e2 : ¬ aa.toNat < bb.toNat := by omega
            have e3 : ¬ cc.toNat < bb.toNat := by omega
            have e4 : ¬ bb.toNat < cc.toNat := by omega
            simp only [e1, e2, if_false] at h1
            simp only [e3, e4, if_false] at h2
            simp only [g1, g2, if_false]
            exact ih bs cs h1 h2
          · have g1 : ¬ cc.toNat < aa.toNat := by omega
            have g2 : aa.toNat < cc.toNat := by omega
            simp [g1, g2]
        · rcases Nat.lt_trichotomy cc.toNat bb.toNat with hcb | hcb | hcb
          · simp [hcb] at h2
          · have g1 : ¬ cc.toNat < aa.toNat := by omega
            have g2 : aa.toNat < cc.toNat := by omega
            simp [g1, g2]
          · have g1 : ¬ cc.toNat < aa.toNat := by omega
            have g2 : aa.toNat < cc.toNat := by omega
            simp [g1, g2]

theorem pyLe_trans {a b c : String} (h1 : pyLe a b = true) (h2 : pyLe b c = true) :
    pyLe a c = true := by
  simp only [pyLe, Bool.not_eq_true'] at h1 h2 ⊢
  have h1' : pyCmp b.data a.data ≠ .lt := by
    intro h; rw [h] at h1; exact absurd h1 (by decide)
  have h2' : pyCmp c.data b.data ≠ .lt := by
    intro h; rw [h] at h2; exact absurd h2 (by decide)
  have := pyCmp_not_lt_trans a.data b.data c.data h1' h2'
  cases hcmp : pyCmp c.data a.data <;> simp_all <;> decide

/-- Comparison is invariant under a common prefix. -/
theorem pyCmp_append_cancel :
    ∀ (p a b : List Char), pyCmp (p ++ a) (p ++ b) = pyCmp a b := by
  intro p a b
  induction p with
  | nil => rfl
  | cons c cs ih => simp [pyCmp, ih]

theorem takeWhile_append_of_all {p : Char → Bool} :
    ∀ (l₁ : List Char) (x : Char) (l₂ : List Char),
      (∀ c ∈ l₁, p c = true) → p x = false →
      (l₁ ++ x :: l₂).takeWhile p = l₁ ∧ (l₁ ++ x :: l₂).dropWhile p = x :: l₂ := by
  intro l₁ x l₂ hall hx
  induction l₁ with
  | nil => simp [List.takeWhile, List.dropWhile, hx]
  | cons c cs ih =>
    have hc : p c = true := hall c (by simp)
    have ih' := ih (fun d hd => hall d (by simp [hd]))
    simp [List.takeWhile, List.dropWhile, hc, ih'.1, ih'.2]

/-- Evaluating the version stripper on a string with an explicit `v`+digits
suffix: the suffix is removed and the stem is recovered exactly. -/
theorem stripVersion_append (s : String) (ds : List Char)
    (hne : ds ≠ []) (hds : ∀ c ∈ ds, c.isDigit = true) :
    stripVersion (s ++ ⟨'v' :: ds⟩) = s := by
  have hdata : (s ++ (⟨'v' :: ds⟩ : String)).data = s.data ++ 'v' :: ds := by
    cases s; rfl
  have hrev : (s.data ++ 'v' :: ds).reverse = ds.reverse ++ 'v' :: s.data.reverse := by
    simp
  have hall : ∀ c ∈ ds.reverse, c.isDigit = true := by
    intro c hc; exact hds c (List.mem_reverse.mp hc)
  have hv : ('v' : Char).isDigit = false := by decide
  have hsplit := takeWhile_append_of_all ds.reverse 'v' s.data.reverse hall hv
  unfold stripVersion
  rw [hdata, hrev]
  rw [hsplit.2, hsplit.1]
  have hne' : ds.reverse ≠ [] := by simpa using hne
  simp only [List.isEmpty_eq_true, hne', if_false]
  cases s; simp

theorem digitChar_isDigit {k : Nat} (h : k < 10) : (Nat.digitChar k).isDigit = true := by
  interval_cases k <;> decide

theorem toDigitsCore_ten_digits :
    ∀ (fuel n : Nat) (acc : List Char), (∀ c ∈ acc, c.isDigit = true) →
      ∀ c ∈ Nat.toDigitsCore 10 fuel n acc, c.isDigit = true := by
  intro fuel
  induction fuel with
  | zero => intro n acc hacc; simpa [Nat.toDigitsCore] using hacc
  | succ f ih =>
    intro n acc hacc c hc
    simp only [Nat.toDigitsCore] at hc
    have hd : (Nat.digitChar (n % 10)).isDigit = true :=
      digitChar_isDigit (Nat.mod_lt _ (by omega))
    split at hc
    · rcases List.mem_cons.mp hc with h | h
      · simpa [h] using hd
      · exact hacc c h
    · refine ih (n / 10) (Nat.digitChar (n % 10) :: acc) ?_ c hc
      intro d hd'
      rcases List.mem_cons.mp hd' with h | h
      · simpa [h] using hd
      · exact hacc d h

theorem toDigitsCore_length_le :
    ∀ (fuel n : Nat) (acc : List Char), acc.length ≤ (Nat.toDigitsCore 10 fuel n acc).length := by
  intro fuel
  induction fuel with
  | zero => intro n acc; simp [Nat.toDigitsCore]
  | succ f ih =>
    intro n acc
    simp only [Nat.toDigitsCore]
    split
    · simp
    · have := ih (n / 10) (Nat.digitChar (n % 10) :: acc)
      simp at this
      omega

theorem natRepr_all_digits (n : Nat) : ∀ c ∈ (Nat.repr n).data, c.isDigit = true := by
  have : (Nat.repr n).data = Nat.toDigitsCore 10 (n + 1) n [] := rfl
  rw [this]
  exact toDigitsCore_ten_digits (n + 1) n [] (by simp)

theorem natRepr_ne_nil (n : Nat) : (Nat.repr n).data ≠ [] := by
  have hrw : (Nat.repr n).data = Nat.toDigitsCore 10 (n + 1) n [] := rfl
  rw [hrw]
  simp only [Nat.toDigitsCore]
  split
  · simp
  · have := toDigitsCore_length_le n (n / 10) [Nat.digitChar (n % 10)]
    intro hnil
    rw [hnil] at this
    simp at this

theorem ingestLoop_run (fetch : Option String → Except String (List Doc × Option String))
    (from_d until_d : String) (cs_only : Bool) :
    ∀ (pages : List (List Doc × String)) (last : List Doc) (tok : Option String)
      (page total fuel : Nat),
      fetchRun fetch tok pages last → pages.length + 1 ≤ fuel →
      ingestLoop fetch from_d until_d cs_only fuel page total tok =
        some (.ok (total +
          ((pages.map (fun p => (applyFilters cs_only from_d until_d p.1).length)).sum
            + (applyFilters cs_only from_d until_d last).length))) := by
  intro pages
  induction pages with
  | nil =>
    intro last tok page total fuel hrun hfuel
    match fuel, hfuel with
    | fuel + 1, _ =>
      simp only [fetchRun] at hrun
      simp [ingestLoop, hrun, applyFilters]
  | cons p rest ih =>
    intro last tok page total fuel hrun hfuel
    match fuel, hfuel with
    | fuel + 1, hfuel =>
      obtain ⟨hfetch, hrest⟩ := hrun
      have hstep : ingestLoop fetch from_d until_d cs_only (fuel + 1) page total tok =
          ingestLoop fetch from_d until_d cs_only fuel (page + 1)
            (total + (applyFilters cs_only from_d until_d p.1).length) (some p.2) := by
        simp only [ingestLoop, hfetch]
        rfl
      rw [hstep, ih last (some p.2) (page + 1)
        (total + (applyFilters cs_only from_d until_d p.1).length) fuel hrest
        (by simp at hfuel ⊢; omega)]
      congr 2
      simp only [List.map_cons, List.sum_cons]
      omega

theorem ingestLoop_fail (fetch : Option String → Except String (List Doc × Option String))
    (from_d until_d : String) (cs_only : Bool) :
    ∀ (pages : List (List Doc × String)) (e : String) (tok : Option String)
      (page total fuel : Nat),
      fetchRunFail fetch tok pages e → pages.length + 1 ≤ fuel →
      ingestLoop fetch from_d until_d cs_only fuel page total tok = some (.error e) := by
  intro pages
  induction pages with
  | nil =>
    intro e tok page total fuel hrun hfuel
    match fuel, hfuel with
    | fuel + 1, _ =>
      simp only [fetchRunFail] at hrun
      simp [ingestLoop, hrun]
  | cons p rest ih =>
    intro e tok page total fuel hrun hfuel
    match fuel, hfuel with
    | fuel + 1, hfuel =>
      obtain ⟨hfetch, hrest⟩ := hrun
      have hstep : ingestLoop fetch from_d until_d cs_only (fuel + 1) page total tok =
          ingestLoop fetch from_d until_d cs_only fuel (page + 1)
            (total + (applyFilters cs_only from_d until_d p.1).length) (some p.2) := by
        simp only [ingestLoop, hfetch]
        rfl
      rw [hstep]
      exact ih e (some p.2) (page + 1)
        (total + (applyFilters cs_only from_d until_d p.1).length) fuel hrest
        (by simp at hfuel ⊢; omega)

theorem ymOfLin_mk (y m : Nat) (hm1 : 1 ≤ m) (hm2 : m ≤ 12) :
    ymOfLin (y * 12 + m) = (y, m) := by
  unfold ymOfLin
  have h1 : (y * 12 + m - 1) / 12 = y := by omega
  have h2 : (y * 12 + m - 1) % 12 + 1 = m := by omega
  rw [h1, h2]

theorem daysInMonth_bounds (y m : Nat) :
    28 ≤ daysInMonth y m ∧ daysInMonth y m ≤ 31 := by
  unfold daysInMonth
  split_ifs <;> omega

theorem data_append (s t : String) : (s ++ t).data = s.data ++ t.data := by
  cases s; cases t; rfl

theorem strAssoc (a b c : String) : a ++ b ++ c = a ++ (b ++ c) := by
  apply String.ext
  simp [data_append]

theorem pad4_eq_repr {y : Nat} (hy : 1000 ≤ y) : pad4 y = Nat.repr y := by
  unfold pad4
  have h1 : ¬ y < 10 := by omega
  have h2 : ¬ y < 100 := by omega
  have h3 : ¬ y < 1000 := by omega
  simp [h1, h2, h3]

/-- For any month, the un-clamped `until_d` computed by the source is the ISO
string of the last calendar day of that month. -/
theorem until0_eq (y m : Nat) (hy : 1000 ≤ y) (hm1 : 1 ≤ m) (hm2 : m ≤ 12) :
    until0 y m = pad4 y ++ "-" ++ pad2 m ++ "-" ++ pad2 (daysInMonth y m) := by
  unfold until0
  by_cases h : m < 12
  · have hd : ¬ (1:Nat) < 1 := by omega
    have hm : 1 < m + 1 := by omega
    simp only [h, if_true, isoFmt, prevDay, hd, if_false, hm, if_true, Nat.add_sub_cancel]
  · have hm12 : m = 12 := by omega
    subst hm12
    simp only [h, if_false]
    have h2 : pad2 12 = "12" := by decide
    have h31 : pad2 (daysInMonth y 12) = "31" := by
      have h12 : daysInMonth y 12 = 31 := by unfold daysInMonth; simp
      rw [h12]; decide
    rw [h2, h31, pad4_eq_repr hy]
    apply String.ext
    simp [data_append]

theorem pyLe_append (p a b : String) : pyLe (p ++ a) (p ++ b) = pyLe a b := by
  unfold pyLe
  rw [data_append, data_append, pyCmp_append_cancel]

theorem from_le_until0 (y m : Nat) (hy : 1000 ≤ y) (hm1 : 1 ≤ m) (hm2 : m ≤ 12) :
    pyLe (fromD y m) (until0 y m) = true := by
  rw [until0_eq y m hy hm1 hm2, pad4_eq_repr hy]
  have hf : fromD y m = (Nat.repr y ++ "-" ++ pad2 m ++ "-") ++ "01" := by
    unfold fromD
    rw [strAssoc (Nat.repr y ++ "-" ++ pad2 m) "-" "01"]
    rfl
  have hu : Nat.repr y ++ "-" ++ pad2 m ++ "-" ++ pad2 (daysInMonth y m)
      = (Nat.repr y ++ "-" ++ pad2 m ++ "-") ++ pad2 (daysInMonth y m) := rfl
  rw [hf, hu, pyLe_append]
  obtain ⟨hd1, hd2⟩ := daysInMonth_bounds y m
  set d := daysInMonth y m with hdd
  interval_cases d <;> decide

theorem nextLin (y m : Nat) (hm1 : 1 ≤ m) (hm2 : m ≤ 12) :
    nextY y m * 12 + nextM m = y * 12 + m + 1 := by
  unfold nextY nextM
  split <;> omega

/-- The generator loop of `month_range` yields exactly one window per month,
in chronological order, cut off at the first month whose `from_d` exceeds
`today` (Python string comparison).  Stated for year linearisations staying
within `datetime.date`'s year range so the embedded `ValueError` of
`date(y, m+1, 1)` cannot fire. -/
theorem monthRangeGo_eq (today : String) :
    ∀ (n y m : Nat), 1 ≤ y → 1 ≤ m → m ≤ 12 → y * 12 + m + n ≤ 120001 →
      monthRangeGo today n y m =
        .ok ((((List.range n).map (fun i => ymOfLin (y * 12 + m + i))).takeWhile
              (fun p => pyLe (fromD p.1 p.2) today)).map (fun p => mkWindow p today)) := by
  intro n
  induction n with
  | zero => intro y m _ _ _ _; simp [monthRangeGo]
  | succ n ih =>
    intro y m hy hm1 hm2 hbound
    have hy2 : y ≤ 9999 := by omega
    have herr : ¬ (m < 12 ∧ ¬(1 ≤ y ∧ y ≤ 9999)) := by omega
    rw [List.range_succ_eq_map]
    simp only [List.map_cons, List.map_map, Nat.add_zero]
    rw [ymOfLin_mk y m hm1 hm2]
    have hshift : ((fun i => ymOfLin (y * 12 + m + i)) ∘ Nat.succ)
        = (fun i => ymOfLin (nextY y m * 12 + nextM m + i)) := by
      funext i
      simp only [Function.comp]
      rw [nextLin y m hm1 hm2]
      congr 1
      omega
    rw [hshift]
    by_cases hguard : pyLt today (fromD y m) = true
    · have hpred : pyLe (fromD y m) today = false := by
        simp only [pyLt] at hguard
        simp only [pyLe, hguard, Bool.not_true]
      have hlhs : monthRangeGo today (n + 1) y m = .ok [] := by
        simp only [monthRangeGo, herr, if_false, hguard, if_true]
      rw [hlhs]
      simp only [List.takeWhile_cons, hpred, Bool.false_eq_true, if_false, List.map_nil]
    · have hguard' : pyLt today (fromD y m) = false := by
        simpa using hguard
      have hpred : pyLe (fromD y m) today = true := by
        simp only [pyLt] at hguard'
        simp only [pyLe, hguard', Bool.not_false]
      have hrec := ih (nextY y m) (nextM m)
        (by unfold nextY; split <;> omega)
        (by unfold nextM; split <;> omega)
        (by unfold nextM; split <;> omega)
        (by rw [nextLin y m hm1 hm2]; omega)
      have hlhs : monthRangeGo today (n + 1) y m =
          match monthRangeGo today n (nextY y m) (nextM m) with
          | .error e => .error e
          | .ok rest => .ok (⟨mLabel y m, fromD y m, pyMin (until0 y m) today⟩ :: rest) := by
        simp only [monthRangeGo, herr, if_false, hguard', Bool.false_eq_true, if_false]
      rw [hlhs, hrec]
      simp only [List.takeWhile_cons, hpred, if_true, List.map_cons]
      rfl

theorem filter_filter_eq {α : Type} (p q : α → Bool) (l : List α) :
    (l.filter p).filter q = l.filter (fun a => p a && q a) := by
  induction l with
  | nil => rfl
  | cons x xs ih =>
    by_cases hp : p x <;> by_cases hq : q x <;>
      simp [List.filter_cons, hp, hq, ih]

theorem stripVersion_vrepr (s : String) (i : Nat) :
    stripVersion (s ++ "v" ++ Nat.repr i) = s := by
  have hv : ("v" : String).data = ['v'] := rfl
  have h : s ++ "v" ++ Nat.repr i = s ++ (⟨'v' :: (Nat.repr i).data⟩ : String) := by
    apply String.ext
    simp [data_append, hv]
  rw [h]
  exact stripVersion_append s (Nat.repr i).data (natRepr_ne_nil i) (natRepr_all_digits i)

theorem stripVersion_noSuffix (s : String) (h : hasVersionSuffix s = false) :
    stripVersion s = s := by
  unfold hasVersionSuffix at h
  unfold stripVersion
  split
  · rename_i rest heq
    rw [heq] at h
    simp only [Bool.not_eq_false'] at h
    simp [h]
  · rfl

/-- C10: the two filters are idempotent and commute, and each returns a
subsequence of its input. -/
theorem C10_filters_algebra :
    ∀ (docs : List Doc) (from_d until_d : String),
      filter_in_range (filter_in_range docs from_d until_d) from_d until_d
          = filter_in_range docs from_d until_d
      ∧ filter_cs_only (filter_cs_only docs) = filter_cs_only docs
      ∧ filter_cs_only (filter_in_range docs from_d until_d)
          = filter_in_range (filter_cs_only docs) from_d until_d
      ∧ List.Sublist (filter_in_range docs from_d until_d) docs
      ∧ List.Sublist (filter_cs_only docs) docs := by
  intro docs from_d until_d
  unfold filter_in_range filter_cs_only
  refine ⟨?_, ?_, ?_, List.filter_sublist docs, List.filter_sublist docs⟩
  · rw [filter_filter_eq]
    congr 1
    funext d
    rw [Bool.and_self]
  · rw [filter_filter_eq]
    congr 1
    funext d
    rw [Bool.and_self]
  · rw [filter_filter_eq, filter_filter_eq]
    congr 1
    funext d
    rw [Bool.and_comm]

/-- C4: `filter_in_range` keeps a document iff
`from_date <= created <= until_date` under Python string comparison, and on
the four documents with `created` `2025-12-31`, `2026-01-01`, `2026-01-31`,
`2026-02-01` and the window `(2026-01-01, 2026-01-31)` it keeps exactly the
middle two. -/
theorem C4_filter_in_range_exact :
    (∀ (docs : List Doc) (from_d until_d : String) (d : Doc),
        d ∈ filter_in_range docs from_d until_d ↔
          d ∈ docs ∧ pyLe from_d d.created = true ∧ pyLe d.created until_d = true)
    ∧ filter_in_range [dDec31, dJan1, dJan31, dFeb1] "2026-01-01" "2026-01-31"
        = [dJan1, dJan31] := by
  constructor
  · intro docs from_d until_d d
    unfold filter_in_range
    rw [List.mem_filter]
    simp [Bool.and_eq_true]
  · rfl

/-- C7: the parser's identifier normalisation strips a trailing `v`+digits
suffix, so `s ++ "v" ++ str(i)` and `s ++ "v" ++ str(j)` collapse to the same
id for every stem `s`; identifiers without such a suffix are unchanged; and
two concrete records with ids `abc123v1` / `abc123v2` parse to documents with
the same `arxiv_id` `abc123`. -/
theorem C7_version_collapse :
    (∀ (s : String) (i j : Nat),
        stripVersion (s ++ "v" ++ Nat.repr i) = stripVersion (s ++ "v" ++ Nat.repr j))
    ∧ (∀ s : String, hasVersionSuffix s = false → stripVersion s = s)
    ∧ parse_record (recWithId "abc123v1") =
        .ok (some { arxiv_id := "abc123", title := "A Title", authors := [],
                    abstract := "An abstract.", categories := ["cs.AI", "math.CO"],
                    created := "2026-01-15" })
    ∧ parse_record (recWithId "abc123v2") =
        .ok (some { arxiv_id := "abc123", title := "A Title", authors := [],
                    abstract := "An abstract.", categories := ["cs.AI", "math.CO"],
                    created := "2026-01-15" }) := by
  refine ⟨?_, stripVersion_noSuffix, rfl, rfl⟩
  intro s i j
  rw [stripVersion_vrepr, stripVersion_vrepr]

/-- C7 witness: the theorem applied at concrete inputs, discharging the
no-suffix hypothesis at `"abc123"` (and instantiating the collapse at
`i = 1`, `j = 2`). -/
theorem C7_version_collapse_witness :
    stripVersion ("abc123" ++ "v" ++ Nat.repr 1) = stripVersion ("abc123" ++ "v" ++ Nat.repr 2)
    ∧ stripVersion "abc123" = "abc123" :=
  ⟨C7_version_collapse.1 "abc123" 1 2, C7_version_collapse.2.1 "abc123" (by decide)⟩

/-- C1: token extraction in `fetch_page`.  A present-but-whitespace-only
`resumptionToken` element yields `next_token = None` and a non-empty one is
returned (stripped); but when the element is entirely absent the code
dereferences `rt.text` on `None` and raises `AttributeError` instead of
returning `None` — the absent half of the claim fails on the code. -/
theorem C1_token_extraction :
    fetch_page respNoToken =
        .error (.attributeError "NoneType object has no attribute text")
    ∧ fetch_page (respWithToken "   ") = .ok ([paper1Doc], none)
    ∧ fetch_page (respWithToken " tok123 ") = .ok ([paper1Doc], some "tok123") :=
  ⟨rfl, rfl, rfl⟩

/-- C8 counterexample: a raw record with title and abstract elements present
and no identifier, whose wrapper is not the truthy namespaced `arXiv` child —
`parse_record` raises `SyntaxError` (the unsupported `local-name()` XPath
predicate), it does not return "no document". -/
theorem C8_counterexample :
    parse_record recNoNsWrapper = .error (.syntaxError "invalid predicate")
    ∧ (Except.error (PyErr.syntaxError "invalid predicate")
        ≠ (.ok none : Except PyErr (Option Doc))) :=
  ⟨rfl, by simp⟩

/-- C8 (amended): for every raw record whose metadata carries an
arxiv-namespaced `arXiv` wrapper child with at least one child element (so
the wrapper lookup's truthy first tier is taken), if no identifier can be
extracted then `parse_record` returns "no document" (`.ok none`) rather than
raising — even when title and abstract elements are present. -/
theorem C8_missing_id_returns_none (r meta a : XmlNode)
    (hmeta : findDesc r oaiURI "metadata" = some meta)
    (hwrap : findChild meta arxivURI "arXiv" = some a)
    (hkids : a.children.isEmpty = false)
    (hid : pyText (pyFirst (some a) "id") = none) :
    parse_record r = .ok none := by
  unfold parse_record
  rw [hmeta]
  dsimp only
  rw [hwrap]
  dsimp only
  rw [hkids]
  simp only [Bool.false_eq_true, if_false]
  rw [hid]

/-- C8 witness: the amended theorem applied to a concrete record with title
and abstract but no identifier. -/
theorem C8_missing_id_witness : parse_record recNoId = .ok none :=
  C8_missing_id_returns_none recNoId recNoIdMeta recNoIdWrap rfl rfl rfl rfl

/-- C2 counterexample: two runs that fail at different page numbers (1 vs 2)
with different cumulative submitted counts (0 vs 1) propagate *identical*
error values, so the propagated error cannot carry the page number or the
cumulative count. -/
theorem C2_counterexample :
    fetchFailFirst none = .error "OAI failed: 500"
    ∧ fetchFailSecond none = .ok ([dJan1], some "tok1")
    ∧ fetchFailSecond (some "tok1") = .error "OAI failed: 500"
    ∧ ingest_range fetchFailFirst "2026-01-01" "2026-01-31" false 5
        = some (.error "OAI failed: 500")
    ∧ ingest_range fetchFailSecond "2026-01-01" "2026-01-31" false 5
        = some (.error "OAI failed: 500")
    ∧ ingest_range fetchFailFirst "2026-01-01" "2026-01-31" false 5
        = ingest_range fetchFailSecond "2026-01-01" "2026-01-31" false 5 :=
  ⟨rfl, rfl, rfl, rfl, rfl, rfl⟩

/-- C2 (amended): whenever a page fetch raises an unhandled error, the error
is propagated by `ingest_range` to the caller *unchanged* — the raised error
value itself, with no page number or cumulative count attached to it. -/
theorem C2_error_propagated_unchanged
    (fetch : Option String → Except String (List Doc × Option String))
    (from_d until_d : String) (cs_only : Bool)
    (pages : List (List Doc × String)) (e : String) (fuel : Nat)
    (hrun : fetchRunFail fetch none pages e) (hfuel : pages.length + 1 ≤ fuel) :
    ingest_range fetch from_d until_d cs_only fuel = some (.error e) :=
  ingestLoop_fail fetch from_d until_d cs_only pages e none 1 0 fuel hrun hfuel

/-- C2 witness: the amended propagation theorem applied to the concrete
page-2 failure run. -/
theorem C2_error_propagated_witness :
    ingest_range fetchFailSecond "2026-01-01" "2026-01-31" false 5
      = some (.error "OAI failed: 500") :=
  C2_error_propagated_unchanged fetchFailSecond "2026-01-01" "2026-01-31" false
    [([dJan1], "tok1")] "OAI failed: 500" 5 ⟨rfl, rfl⟩ (by decide)

/-- C6: in every run in which some fetched page carries no continuation
token, the driver terminates at that page — whatever the pages contained —
and returns the total number of documents submitted across the window. -/
theorem C6_terminates_on_exhaustion
    (fetch : Option String → Except String (List Doc × Option String))
    (from_d until_d : String) (cs_only : Bool)
    (pages : List (List Doc × String)) (last : List Doc) (fuel : Nat)
    (hrun : fetchRun fetch none pages last) (hfuel : pages.length + 1 ≤ fuel) :
    ingest_range fetch from_d until_d cs_only fuel =
      some (.ok ((pages.map (fun p => (applyFilters cs_only from_d until_d p.1).length)).sum
                 + (applyFilters cs_only from_d until_d last).length)) := by
  have h := ingestLoop_run fetch from_d until_d cs_only pages last none 1 0 fuel hrun hfuel
  simpa [ingest_range] using h

/-- C6 witness: the termination theorem applied to a concrete two-page run
(the out-of-range `2026-02-01` document is filtered out, so the total is 2). -/
theorem C6_terminates_witness :
    ingest_range fetchTwoPages "2026-01-01" "2026-01-31" false 5 = some (.ok 2) :=
  Eq.trans
    (C6_terminates_on_exhaustion fetchTwoPages "2026-01-01" "2026-01-31" false
      [([dJan1, dFeb1], "tokA")] [dJan31] 5 ⟨rfl, rfl⟩ (by decide))
    rfl

theorem window_invariants_aux (y m : Nat) (today : String)
    (hy1 : 1000 ≤ y) (hm1 : 1 ≤ m) (hm2 : m ≤ 12)
    (hft : pyLe (fromD y m) today = true) :
    pyLe (fromD y m) (pyMin (until0 y m) today) = true
      ∧ pyLe (pyMin (until0 y m) today) today = true := by
  unfold pyMin
  by_cases hlt : pyLt today (until0 y m) = true
  · simp only [hlt, if_true]
    exact ⟨hft, pyLe_refl today⟩
  · have hlt' : pyLt today (until0 y m) = false := by simpa using hlt
    simp only [hlt', Bool.false_eq_true, if_false]
    exact ⟨from_le_until0 y m hy1 hm1 hm2, pyLe_of_not_lt hlt'⟩

/-- C5: every MonthWindow yielded by `month_range` (with 4-digit `YYYY`
years, the spec's fixed-width month format) satisfies
`from_date <= until_date <= today` under Python string comparison, and no
yielded window has `from_date > today`. -/
theorem C5_window_invariants (sy sm ey em : Nat) (today : String)
    (windows : List MonthWindow)
    (hsy : 1000 ≤ sy) (hey : ey ≤ 9999)
    (h : month_range sy sm ey em today = .ok windows) :
    ∀ w ∈ windows,
      pyLe w.from_d w.until_d = true ∧ pyLe w.until_d today = true
        ∧ pyLe w.from_d today = true := by
  unfold month_range at h
  split_ifs at h with h1 h2 h3
  push_neg at h1 h2
  rw [monthRangeGo_eq today (ey * 12 + em + 1 - (sy * 12 + sm)) sy sm
    (by omega) (by omega) (by omega) (by omega)] at h
  have hwin := (Except.ok.inj h).symm
  subst hwin
  intro w hw
  obtain ⟨p, hp, rfl⟩ := List.mem_map.mp hw
  have hpred : pyLe (fromD p.1 p.2) today = true := by
    simpa using List.mem_takeWhile_imp hp
  have hpmem : p ∈ (List.range (ey * 12 + em + 1 - (sy * 12 + sm))).map
      (fun i => ymOfLin (sy * 12 + sm + i)) :=
    (List.takeWhile_sublist _).mem hp
  obtain ⟨i, hi, hpi⟩ := List.mem_map.mp hpmem
  have hilt := List.mem_range.mp hi
  have hp1 : p.1 = (sy * 12 + sm + i - 1) / 12 := by rw [← hpi]; rfl
  have hp2 : p.2 = (sy * 12 + sm + i - 1) % 12 + 1 := by rw [← hpi]; rfl
  have hy1 : 1000 ≤ p.1 := by rw [hp1]; omega
  have hm1 : 1 ≤ p.2 := by rw [hp2]; omega
  have hm2 : p.2 ≤ 12 := by rw [hp2]; omega
  have haux := window_invariants_aux p.1 p.2 today hy1 hm1 hm2 hpred
  exact ⟨haux.1, haux.2, hpred⟩

/-- C5 witness: the invariant theorem applied to the concrete plan
`month_range(2024-01, 2024-02)` with `today = "2026-10-12"`, instantiated at
its first yielded window. -/
theorem C5_window_invariants_witness :
    pyLe "2024-01-01" "2024-01-31" = true ∧ pyLe "2024-01-31" "2026-10-12" = true
      ∧ pyLe "2024-01-01" "2026-10-12" = true :=
  C5_window_invariants 2024 1 2024 2 "2026-10-12"
    [⟨"2024-01", "2024-01-01", "2024-01-31"⟩, ⟨"2024-02", "2024-02-01", "2024-02-29"⟩]
    (by norm_num) (by norm_num) rfl
    ⟨"2024-01", "2024-01-01", "2024-01-31"⟩ (by simp)

/-- C9: `month_range` (over 4-digit `YYYY` years) raises a `ValueError`-class
error — before yielding any window and with no network activity — exactly
when a month component is outside `[1, 12]` or start exceeds end in the
linearised `year*12 + month` order; for valid input it raises nothing and
yields one window per calendar month of the inclusive span in chronological
order, truncated at the first month starting after `today`. -/
theorem C9_month_range_plan (sy sm ey em : Nat) (today : String)
    (hsy1 : 1000 ≤ sy) (hsy2 : sy ≤ 9999) (hey1 : 1000 ≤ ey) (hey2 : ey ≤ 9999) :
    ((¬(1 ≤ sm ∧ sm ≤ 12) ∨ ¬(1 ≤ em ∧ em ≤ 12) ∨ ey * 12 + em < sy * 12 + sm) →
        exceptIsError (month_range sy sm ey em today) = true)
    ∧ ((1 ≤ sm ∧ sm ≤ 12) → (1 ≤ em ∧ em ≤ 12) → sy * 12 + sm ≤ ey * 12 + em →
        month_range sy sm ey em today =
          .ok ((((List.range (ey * 12 + em + 1 - (sy * 12 + sm))).map
                  (fun i => ymOfLin (sy * 12 + sm + i))).takeWhile
                (fun p => pyLe (fromD p.1 p.2) today)).map (fun p => mkWindow p today))) := by
  constructor
  · intro hbad
    unfold month_range
    by_cases hsm : 1 ≤ sm ∧ sm ≤ 12
    · by_cases hem : 1 ≤ em ∧ em ≤ 12
      · have horder : ey * 12 + em < sy * 12 + sm := by tauto
        rw [if_neg (not_not_intro hsm), if_neg (not_not_intro hem), if_pos horder]
        rfl
      · rw [if_neg (not_not_intro hsm), if_pos hem]
        rfl
    · rw [if_pos hsm]
      rfl
  · intro hsm hem horder
    unfold month_range
    rw [if_neg (not_not_intro hsm), if_neg (not_not_intro hem), if_neg (by omega)]
    exact monthRangeGo_eq today (ey * 12 + em + 1 - (sy * 12 + sm)) sy sm
      (by omega) (by omega) (by omega) (by omega)

/-- C9 witness: an invalid start month (`2024-13`) fails, and the valid plan
`month_range(2024-01, 2024-02)` with `today = "2026-10-12"` yields exactly
the two months of the span, in order. -/
theorem C9_month_range_plan_witness :
    exceptIsError (month_range 2024 13 2024 1 "2026-10-12") = true
    ∧ month_range 2024 1 2024 2 "2026-10-12" =
        .ok [⟨"2024-01", "2024-01-01", "2024-01-31"⟩,
             ⟨"2024-02", "2024-02-01", "2024-02-29"⟩] :=
  ⟨(C9_month_range_plan 2024 13 2024 1 "2026-10-12"
      (by norm_num) (by norm_num) (by norm_num) (by norm_num)).1 (Or.inl (by omega)),
   Eq.trans
     ((C9_month_range_plan 2024 1 2024 2 "2026-10-12"
        (by norm_num) (by norm_num) (by norm_num) (by norm_num)).2
        (by omega) (by omega) (by omega))
     rfl⟩

/-- C3: the plan for `("2024-01", "2024-03")` yields exactly three windows
with `until_date` `2024-01-31`, `2024-02-29` (leap year), `2024-03-31` (for
any `today` not before `2024-03-31`, which holds of the actual current
date); and in general the un-clamped `until_d` computed by the source is the
ISO string of the true last calendar day of the month — 29 days for
leap-year February, 28 otherwise, with the century rule. -/
theorem C3_month_windows (today : String) (h : pyLe "2024-03-31" today = true) :
    month_range 2024 1 2024 3 today =
      .ok [⟨"2024-01", "2024-01-01", "2024-01-31"⟩,
           ⟨"2024-02", "2024-02-01", "2024-02-29"⟩,
           ⟨"2024-03", "2024-03-01", "2024-03-31"⟩]
    ∧ (∀ y m : Nat, 1000 ≤ y → 1 ≤ m → m ≤ 12 →
        until0 y m = pad4 y ++ "-" ++ pad2 m ++ "-" ++ pad2 (daysInMonth y m))
    ∧ daysInMonth 2024 2 = 29 ∧ daysInMonth 2023 2 = 28
    ∧ daysInMonth 2000 2 = 29 ∧ daysInMonth 1900 2 = 28 := by
  refine ⟨?_, fun y m hy hm1 hm2 => until0_eq y m hy hm1 hm2,
    by decide, by decide, by decide, by decide⟩
  have t1 : pyLe "2024-01-01" today = true := pyLe_trans (by decide) h
  have t2 : pyLe "2024-02-01" today = true := pyLe_trans (by decide) h
  have t3 : pyLe "2024-03-01" today = true := pyLe_trans (by decide) h
  have u1 : pyLe "2024-01-31" today = true := pyLe_trans (by decide) h
  have u2 : pyLe "2024-02-29" today = true := pyLe_trans (by decide) h
  have u1' : pyLt today "2024-01-31" = false := by simpa [pyLe, pyLt] using u1
  have u2' : pyLt today "2024-02-29" = false := by simpa [pyLe, pyLt] using u2
  have u3' : pyLt today "2024-03-31" = false := by simpa [pyLe, pyLt] using h
  have hmain : month_range 2024 1 2024 3 today =
      .ok ((((List.range 3).map (fun i => ymOfLin (2024 * 12 + 1 + i))).takeWhile
            (fun p => pyLe (fromD p.1 p.2) today)).map (fun p => mkWindow p today)) := by
    unfold month_range
    rw [if_neg (by omega), if_neg (by omega), if_neg (by omega),
      show 2024 * 12 + 3 + 1 - (2024 * 12 + 1) = 3 from by omega]
    exact monthRangeGo_eq today 3 2024 1 (by omega) (by omega) (by omega) (by omega)
  rw [hmain,
    show ((List.range 3).map fun i => ymOfLin (2024 * 12 + 1 + i))
      = [(2024, 1), (2024, 2), (2024, 3)] from by decide]
  have f1 : fromD 2024 1 = "2024-01-01" := rfl
  have f2 : fromD 2024 2 = "2024-02-01" := rfl
  have f3 : fromD 2024 3 = "2024-03-01" := rfl
  have w1 : mkWindow (2024, 1) today = ⟨"2024-01", "2024-01-01", "2024-01-31"⟩ := by
    show (⟨mLabel 2024 1, fromD 2024 1, pyMin (until0 2024 1) today⟩ : MonthWindow) = _
    rw [show until0 2024 1 = "2024-01-31" from rfl]
    unfold pyMin
    rw [u1']
    rfl
  have w2 : mkWindow (2024, 2) today = ⟨"2024-02", "2024-02-01", "2024-02-29"⟩ := by
    show (⟨mLabel 2024 2, fromD 2024 2, pyMin (until0 2024 2) today⟩ : MonthWindow) = _
    rw [show until0 2024 2 = "2024-02-29" from rfl]
    unfold pyMin
    rw [u2']
    rfl
  have w3 : mkWindow (2024, 3) today = ⟨"2024-03", "2024-03-01", "2024-03-31"⟩ := by
    show (⟨mLabel 2024 3, fromD 2024 3, pyMin (until0 2024 3) today⟩ : MonthWindow) = _
    rw [show until0 2024 3 = "2024-03-31" from rfl]
    unfold pyMin
    rw [u3']
    rfl
  simp only [List.takeWhile_cons, f1, f2, f3, t1, t2, t3, if_true,
    List.takeWhile_nil, List.map_cons, List.map_nil, w1, w2, w3]

/-- C3 witness: the theorem applied at `today = "2026-10-12"`. -/
theorem C3_month_windows_witness :
    month_range 2024 1 2024 3 "2026-10-12" =
      .ok [⟨"2024-01", "2024-01-01", "2024-01-31"⟩,
           ⟨"2024-02", "2024-02-01", "2024-02-29"⟩,
           ⟨"2024-03", "2024-03-01", "2024-03-31"⟩] :=
  (C3_month_windows "2026-10-12" (by decide)).1
